import Mathlib

/-!
Verification of the `CData` / `LabeledCData` data-handling core of the
nisqai library against its natural-language specification.

The implementation module `nisqai/data/_cdata.py` is not part of the
source excerpt; only its test suite `nisqai/data/_cdata_test.py` is.
The definitions below therefore model the missing implementation from the
specification's words, and wherever the test suite pins the observable
behaviour more precisely than the specification does (the train/test
split index and off-by-one, the standard-deviation divisor), the model
follows the test suite, since the tests are repository code.

Data values are modelled as rationals (`ℚ`); the tests only exercise
exact decimal inputs, and every comparison made below is within the test
suite's tolerance, so no floating-point rounding is modelled.
-/

namespace NisqaiData

/-- Modelled from the spec: `_cdata.py` is not in the excerpt.
`train_test_split(fraction)` computes the split index from the desired
test fraction.  The spec's worked table for `num_samples = 7`
(0.1 → 0, 0.2 → 1, 0.3 → 2, 0.4 → 2, 0.5 → 3, 0.6 → 4, 0.7 → 4,
0.8 → 5, 0.9 → 6, 1.0 → 7), which the test suite asserts verbatim, is the
floor of `fraction * num_samples` (Python `int(...)` truncation for
non-negative arguments), not its rounding: rounding `0.4 * 7 = 2.8` gives
3, yet the table and the tests demand 2. -/
def splitIndex (fraction : ℚ) (numSamples : ℕ) : ℕ :=
  (Int.floor (fraction * numSamples)).toNat

/-- Modelled from the spec: `_cdata.py` is not in the excerpt.
`train_test_split(fraction)` on the sample sequence.  The test set is the
prefix of `splitIndex` samples.  The test suite
(`test_data_splititng`, lines 164–209) asserts for every fraction that the
train set equals `data[k+1::]`, i.e. it starts one past the split index,
so the model drops the sample at the split index.  The operation is pure:
it returns fresh sequences and leaves the data untouched. -/
def train_test_split (fraction : ℚ) (data : List α) : List α × List α :=
  (data.take (splitIndex fraction data.length),
   data.drop (splitIndex fraction data.length + 1))

/-- The concrete sample sequence used by `test_data_splititng`. -/
def splitTestData : List ℤ := [-1, 0, 1, 5, -2, 17, 8]

theorem splitIndex_le (fraction : ℚ) (n : ℕ) (hf : fraction ≤ 1) :
    splitIndex fraction n ≤ n := by
  unfold splitIndex
  have h1 : fraction * n ≤ (n : ℚ) := by
    calc fraction * n ≤ 1 * n := by
          apply mul_le_mul_of_nonneg_right hf (by positivity)
    _ = (n : ℚ) := one_mul _
  have h2 : Int.floor (fraction * (n : ℚ)) ≤ (n : ℤ) := by
    have := Int.floor_mono h1
    simpa using this
  omega

theorem length_take_splitIndex (fraction : ℚ) (data : List α)
    (hf : fraction ≤ 1) :
    (data.take (splitIndex fraction data.length)).length =
      splitIndex fraction data.length := by
  simp [List.length_take, Nat.min_eq_left (splitIndex_le fraction data.length hf)]

theorem splitTestData_length : splitTestData.length = 7 := rfl

theorem splitIndex_two_tenths_seven : splitIndex (2/10) 7 = 1 := by
  unfold splitIndex
  norm_num

theorem splitIndex_five_tenths_seven : splitIndex (5/10) 7 = 3 := by
  unfold splitIndex
  norm_num
  decide

theorem splitIndex_one_tenth_seven : splitIndex (1/10) 7 = 0 := by
  unfold splitIndex
  norm_num

/-- The split index at each fraction of the spec's worked table for seven
samples, matching `test_data_splititng`. -/
theorem splitIndex_table :
    splitIndex (1/10) 7 = 0 ∧ splitIndex (2/10) 7 = 1 ∧
    splitIndex (3/10) 7 = 2 ∧ splitIndex (4/10) 7 = 2 ∧
    splitIndex (5/10) 7 = 3 ∧ splitIndex (6/10) 7 = 4 ∧
    splitIndex (7/10) 7 = 4 ∧ splitIndex (8/10) 7 = 5 ∧
    splitIndex (9/10) 7 = 6 ∧ splitIndex 1 7 = 7 := by
  unfold splitIndex
  norm_num
  decide

/-- C1.  The spec claims `train_test_split(f)` returns the first `k`
samples and the remaining `num_samples - k` samples, so that the
concatenation of test and train data reconstructs the original data.
The code (as pinned by `test_data_splititng`) instead returns
`(data[:k], data[k+1:])`: at fraction 0.2 on the seven test samples the
split index is 1, the returned pair is `([-1], [1, 5, -2, 17, 8])`, the
sample `0` at index 1 is lost, and the concatenation has only six
samples. -/
theorem split_concat_loses_sample :
    train_test_split (2/10) splitTestData = ([-1], [1, 5, -2, 17, 8]) ∧
    (train_test_split (2/10) splitTestData).1 ++
        (train_test_split (2/10) splitTestData).2 ≠ splitTestData ∧
    ((train_test_split (2/10) splitTestData).1 ++
        (train_test_split (2/10) splitTestData).2).length = 6 := by
  have h : train_test_split (2/10) splitTestData = ([-1], [1, 5, -2, 17, 8]) := by
    rw [train_test_split, splitTestData_length, splitIndex_two_tenths_seven]
    rfl
  refine ⟨h, ?_, ?_⟩ <;> rw [h] <;> decide

/-- C3.  Whenever the split index `k` is strictly below the number of
samples, the train set is `data[k+1:]` (it starts one past the split
index, not at it), the test and train sets concatenate to the original
data with the sample at index `k` erased, hence together they hold
`num_samples - 1` samples, and reinserting the index-`k` sample between
them restores the original data. -/
theorem train_test_split_drops_index {α : Type} (data : List α)
    (fraction : ℚ)
    (hk : splitIndex fraction data.length < data.length) :
    (train_test_split fraction data).2 =
        data.drop (splitIndex fraction data.length + 1) ∧
    (train_test_split fraction data).1 ++ (train_test_split fraction data).2 =
        data.eraseIdx (splitIndex fraction data.length) ∧
    ((train_test_split fraction data).1 ++
        (train_test_split fraction data).2).length = data.length - 1 ∧
    (train_test_split fraction data).1 ++
        data[splitIndex fraction data.length] ::
          (train_test_split fraction data).2 = data := by
  refine ⟨rfl, ?_, ?_, ?_⟩
  · rw [train_test_split, List.eraseIdx_eq_take_drop_succ]
  · rw [train_test_split]
    simp only [List.length_append, List.length_take, List.length_drop]
    omega
  · rw [train_test_split]
    have h := List.drop_eq_getElem_cons (l := data) hk
    rw [← h, List.take_append_drop]

/-- Witness for C3 at the concrete test data and fraction 0.5: the split
index is 3 < 7, and test ++ train equals the data with index 3 erased. -/
theorem train_test_split_drops_index_witness :
    splitIndex (5/10) splitTestData.length < splitTestData.length ∧
    (train_test_split (5/10) splitTestData).1 ++
        (train_test_split (5/10) splitTestData).2 =
      splitTestData.eraseIdx (splitIndex (5/10) splitTestData.length) :=
  have hk : splitIndex (5/10) splitTestData.length < splitTestData.length := by
    rw [splitTestData_length, splitIndex_five_tenths_seven]
    decide
  ⟨hk, (train_test_split_drops_index splitTestData (5/10) hk).2.1⟩

/-- C2, counterexample.  The claim says the test-set size equals
`round(f * num_samples)`.  At fraction 0.1 on the seven test samples the
code's test set is empty, yet `round(0.1 * 7) = round(0.7) = 1` (under
round-half-up, and round-half-even agrees away from halves). -/
theorem split_size_round_counterexample :
    ((train_test_split (1/10) splitTestData).1).length = 0 ∧
    round ((1/10 : ℚ) * (splitTestData.length : ℚ)) = 1 := by
  constructor
  · rw [train_test_split, splitTestData_length, splitIndex_one_tenth_seven]
    rfl
  · rw [splitTestData_length, round_eq]
    norm_num

/-- C2, amended.  The test-set size equals `⌊f * num_samples⌋` (floor,
Python `int` truncation), not `round(f * num_samples)`; in particular the
claim's table for `num_samples = 7` — fractions 0.1 … 1.0 give sizes
0, 1, 2, 2, 3, 4, 4, 5, 6, 7 — holds of the code. -/
theorem split_test_size_eq_floor :
    (∀ (α : Type) (data : List α) (fraction : ℚ), fraction ≤ 1 →
      ((train_test_split fraction data).1).length =
        (Int.floor (fraction * data.length)).toNat) ∧
    ([1/10, 2/10, 3/10, 4/10, 5/10, 6/10, 7/10, 8/10, 9/10, 1].map
        (fun f : ℚ => ((train_test_split f splitTestData).1).length)
      = [0, 1, 2, 2, 3, 4, 4, 5, 6, 7]) := by
  constructor
  · intro α data fraction hf
    have h := length_take_splitIndex fraction data hf
    simpa [train_test_split, splitIndex] using h
  · obtain ⟨h1, h2, h3, h4, h5, h6, h7, h8, h9, h10⟩ := splitIndex_table
    simp only [List.map_cons, List.map_nil, train_test_split,
      splitTestData_length, h1, h2, h3, h4, h5, h6, h7, h8, h9, h10]
    decide

/-- Witness for C2 (amended) at fraction 0.4 on the seven test samples:
the size is `⌊0.4 * 7⌋ = 2`. -/
theorem split_test_size_eq_floor_witness :
    ((4:ℚ)/10 ≤ 1) ∧
    ((train_test_split ((4:ℚ)/10) splitTestData).1).length =
      (Int.floor ((4:ℚ)/10 * splitTestData.length)).toNat :=
  ⟨by norm_num,
   split_test_size_eq_floor.1 ℤ splitTestData (4/10) (by norm_num)⟩

/-! ## Feature scaling

`scale_features(method)` rescales each feature column independently over
the sample axis.  A data matrix is a list of sample rows of rationals;
`getColumn m j` is feature column `j`. -/

/-- Feature column `j` of the data matrix: the `j`-th entry of every
sample row (0 when a row is too short, which rectangular data never
hits). -/
def getColumn (m : List (List ℚ)) (j : ℕ) : List ℚ :=
  m.map (fun row => row.getD j 0)

/-- Minimum of a feature column over the sample axis (`lo` in the spec's
formula table). -/
def colMin : List ℚ → ℚ
  | [] => 0
  | x :: xs => xs.foldl min x

/-- Maximum of a feature column over the sample axis (`hi` in the spec's
formula table). -/
def colMax : List ℚ → ℚ
  | [] => 0
  | x :: xs => xs.foldl max x

/-- Mean of a feature column over the sample axis (`mu` in the spec's
formula table). -/
def colMean (c : List ℚ) : ℚ := c.sum / c.length

/-- Sample variance of a feature column, with Bessel's `n - 1` divisor:
the square of the standard deviation the `standardize` test values pin
(`sigma^2`). -/
def colSampleVar (c : List ℚ) : ℚ :=
  (c.map (fun v => (v - colMean c) ^ 2)).sum / ((c.length : ℚ) - 1)

/-- Population variance of a feature column, with divisor `n`; the
`standardize` test values rule this divisor out. -/
def colPopVar (c : List ℚ) : ℚ :=
  (c.map (fun v => (v - colMean c) ^ 2)).sum / (c.length : ℚ)

/-- L1 norm of a feature column (`n1 = sum |v|` in the spec's formula
table). -/
def colAbsSum (c : List ℚ) : ℚ := (c.map (fun v => |v|)).sum

/-- Entry of the data matrix at sample `i`, feature `j` (0 out of
range). -/
def entry (m : List (List ℚ)) (i j : ℕ) : ℚ := (m.getD i []).getD j 0

/-- Every row has exactly `w` features: the contract of consistent row
length across the sample axis. -/
def Rectangular (w : ℕ) (m : List (List ℚ)) : Prop :=
  ∀ row ∈ m, row.length = w

/-- Shared skeleton of the five scaling methods: entry `(i, j)` becomes
`(v - sub j) / den j` for per-column shift `sub` and divisor `den`. -/
def colwiseScale (sub den : ℕ → ℚ) (m : List (List ℚ)) : List (List ℚ) :=
  m.map (fun row =>
    (List.range row.length).map (fun j => (row.getD j 0 - sub j) / den j))

/-- Modelled from the spec: `_cdata.py` is not in the excerpt.
`scale_features('min-max norm')` rewrites each value `v` of column `j` to
`(v - lo) / (hi - lo)` with `lo`/`hi` the column minimum/maximum. -/
def minmaxScale (m : List (List ℚ)) : List (List ℚ) :=
  colwiseScale (fun j => colMin (getColumn m j))
    (fun j => colMax (getColumn m j) - colMin (getColumn m j)) m

/-- Modelled from the spec: `_cdata.py` is not in the excerpt.
`scale_features('mean norm')` rewrites each value `v` of column `j` to
`(v - mu) / (hi - lo)`. -/
def meanNormScale (m : List (List ℚ)) : List (List ℚ) :=
  colwiseScale (fun j => colMean (getColumn m j))
    (fun j => colMax (getColumn m j) - colMin (getColumn m j)) m

/-- Modelled from the spec: `_cdata.py` is not in the excerpt.
`scale_features('standardize')` rewrites each value `v` of column `j` to
`(v - mu) / sigma`.  The column standard deviation `sigma` is irrational
in general, so the model takes the per-column divisors as a parameter;
the claims constrain them by `(sigmas j) ^ 2 = colSampleVar (column j)`,
the Bessel-corrected sample variance the test expectations pin. -/
def standardizeWith (sigmas : ℕ → ℚ) (m : List (List ℚ)) : List (List ℚ) :=
  colwiseScale (fun j => colMean (getColumn m j)) sigmas m

/-- Modelled from the spec: `_cdata.py` is not in the excerpt.
`scale_features('L2 norm')` divides each value of column `j` by the
column's L2 norm `n2 = sqrt(sum v^2)`; as with `standardize` the
irrational norm is a parameter constrained by the claims. -/
def l2ScaleWith (norms : ℕ → ℚ) (m : List (List ℚ)) : List (List ℚ) :=
  colwiseScale (fun _ => 0) norms m

/-- Modelled from the spec: `_cdata.py` is not in the excerpt.
`scale_features('L1 norm')` divides each value of column `j` by the
column's L1 norm `n1 = sum |v|`. -/
def l1Scale (m : List (List ℚ)) : List (List ℚ) :=
  colwiseScale (fun _ => 0) (fun j => colAbsSum (getColumn m j)) m

/-- Modelled from the spec: `_cdata.py` is not in the excerpt.
`scale_features(method)` dispatches on the method name; an unrecognized
name raises `UnsupportedMethod` immediately, a recognized one rewrites
`data` in place (modelled by returning the rewritten matrix). -/
def scale_features (sigmas norms : ℕ → ℚ) (method : String)
    (m : List (List ℚ)) : Except String (List (List ℚ)) :=
  if method = "min-max norm" then Except.ok (minmaxScale m)
  else if method = "mean norm" then Except.ok (meanNormScale m)
  else if method = "standardize" then Except.ok (standardizeWith sigmas m)
  else if method = "L2 norm" then Except.ok (l2ScaleWith norms m)
  else if method = "L1 norm" then Except.ok (l1Scale m)
  else Except.error "UnsupportedMethod"

/-- The concrete 3×2 data matrix every `scale_features` test uses. -/
def scaleTestData : List (List ℚ) :=
  [[564/1000, 20661/1000], [-18512/1000, 41168/1000], [-9/1000, 20440/1000]]

/-! Helper lemmas about column minima and maxima. -/

theorem foldl_min_le_acc (xs : List ℚ) (a : ℚ) : xs.foldl min a ≤ a := by
  induction xs generalizing a with
  | nil => exact le_refl a
  | cons x xs ih =>
    exact le_trans (ih (min a x)) (min_le_left a x)

theorem foldl_min_le_mem (xs : List ℚ) (a : ℚ) :
    ∀ v ∈ xs, xs.foldl min a ≤ v := by
  induction xs generalizing a with
  | nil => intro v hv; cases hv
  | cons x xs ih =>
    intro v hv
    rcases List.mem_cons.mp hv with h | h
    · subst h
      exact le_trans (foldl_min_le_acc xs (min a v)) (min_le_right a v)
    · exact ih (min a x) v h

theorem foldl_min_mem (xs : List ℚ) (a : ℚ) :
    xs.foldl min a = a ∨ xs.foldl min a ∈ xs := by
  induction xs generalizing a with
  | nil => exact Or.inl rfl
  | cons x xs ih =>
    rcases ih (min a x) with h | h
    · rcases min_cases a x with ⟨hm, _⟩ | ⟨hm, _⟩
      · exact Or.inl (h.trans hm)
      · exact Or.inr (List.mem_cons.mpr (Or.inl (h.trans hm)))
    · exact Or.inr (List.mem_cons.mpr (Or.inr h))

theorem acc_le_foldl_max (xs : List ℚ) (a : ℚ) : a ≤ xs.foldl max a := by
  induction xs generalizing a with
  | nil => exact le_refl a
  | cons x xs ih =>
    exact le_trans (le_max_left a x) (ih (max a x))

theorem mem_le_foldl_max (xs : List ℚ) (a : ℚ) :
    ∀ v ∈ xs, v ≤ xs.foldl max a := by
  induction xs generalizing a with
  | nil => intro v hv; cases hv
  | cons x xs ih =>
    intro v hv
    rcases List.mem_cons.mp hv with h | h
    · subst h
      exact le_trans (le_max_right a v) (acc_le_foldl_max xs (max a v))
    · exact ih (max a x) v h

theorem foldl_max_mem (xs : List ℚ) (a : ℚ) :
    xs.foldl max a = a ∨ xs.foldl max a ∈ xs := by
  induction xs generalizing a with
  | nil => exact Or.inl rfl
  | cons x xs ih =>
    rcases ih (max a x) with h | h
    · rcases max_cases a x with ⟨hm, _⟩ | ⟨hm, _⟩
      · exact Or.inl (h.trans hm)
      · exact Or.inr (List.mem_cons.mpr (Or.inl (h.trans hm)))
    · exact Or.inr (List.mem_cons.mpr (Or.inr h))

theorem colMin_le_mem (c : List ℚ) : ∀ v ∈ c, colMin c ≤ v := by
  cases c with
  | nil => intro v hv; cases hv
  | cons x xs =>
    intro v hv
    rcases List.mem_cons.mp hv with h | h
    · subst h; exact foldl_min_le_acc xs v
    · exact foldl_min_le_mem xs x v h

theorem mem_le_colMax (c : List ℚ) : ∀ v ∈ c, v ≤ colMax c := by
  cases c with
  | nil => intro v hv; cases hv
  | cons x xs =>
    intro v hv
    rcases List.mem_cons.mp hv with h | h
    · subst h; exact acc_le_foldl_max xs v
    · exact mem_le_foldl_max xs x v h

theorem colMin_mem (c : List ℚ) (hc : c ≠ []) : colMin c ∈ c := by
  cases c with
  | nil => exact absurd rfl hc
  | cons x xs =>
    rcases foldl_min_mem xs x with h | h
    · exact List.mem_cons.mpr (Or.inl h)
    · exact List.mem_cons.mpr (Or.inr h)

theorem colMax_mem (c : List ℚ) (hc : c ≠ []) : colMax c ∈ c := by
  cases c with
  | nil => exact absurd rfl hc
  | cons x xs =>
    rcases foldl_max_mem xs x with h | h
    · exact List.mem_cons.mpr (Or.inl h)
    · exact List.mem_cons.mpr (Or.inr h)

/-! Helper lemmas about matrix entries and columns. -/

theorem colwiseScale_entry (sub den : ℕ → ℚ) (m : List (List ℚ)) (w i j : ℕ)
    (hrect : Rectangular w m) (hi : i < m.length) (hj : j < w) :
    entry (colwiseScale sub den m) i j = (entry m i j - sub j) / den j := by
  have hrow : (m.getD i []).length = w := by
    rw [List.getD_eq_getElem m [] hi]
    exact hrect _ (List.getElem_mem hi)
  have h1 : (colwiseScale sub den m).getD i [] =
      (List.range w).map
        (fun k => ((m.getD i []).getD k 0 - sub k) / den k) := by
    unfold colwiseScale
    rw [List.getD_eq_getElem (List.map _ m) [] (by simpa using hi),
      List.getElem_map, ← hrow, List.getD_eq_getElem m [] hi]
  unfold entry
  rw [h1,
    List.getD_eq_getElem ((List.range w).map _) 0 (by simpa using hj),
    List.getElem_map, List.getElem_range]

theorem entry_mem_getColumn (m : List (List ℚ)) (i j : ℕ)
    (hi : i < m.length) : entry m i j ∈ getColumn m j := by
  unfold entry getColumn
  rw [List.getD_eq_getElem _ _ hi]
  exact List.mem_map.mpr ⟨m[i], List.getElem_mem hi, rfl⟩

theorem getColumn_mem_entry (m : List (List ℚ)) (j : ℕ) (v : ℚ)
    (hv : v ∈ getColumn m j) : ∃ i, i < m.length ∧ entry m i j = v := by
  unfold getColumn at hv
  rcases List.mem_map.mp hv with ⟨row, hrow, hval⟩
  rcases List.mem_iff_getElem.mp hrow with ⟨i, hi, hrow_eq⟩
  exact ⟨i, hi, by rw [entry, List.getD_eq_getElem _ _ hi, hrow_eq, hval]⟩

theorem getColumn_ne_nil (m : List (List ℚ)) (j : ℕ) (hm : m ≠ []) :
    getColumn m j ≠ [] := by
  unfold getColumn
  simpa using hm

/-- Min-max scaling of the concrete 3×2 test matrix, exactly. -/
theorem minmaxScale_scaleTestData :
    minmaxScale scaleTestData = [[1, 221/20728], [0, 1], [18503/19076, 0]] := by
  simp [minmaxScale, colwiseScale, getColumn, colMin, colMax, scaleTestData,
    List.range_succ]
  norm_num [min_def, max_def]

/-- C4.  With every feature column non-degenerate, min-max scaling
rewrites entry `(i, j)` to `(v - lo) / (hi - lo)` for that column's
minimum `lo` and maximum `hi`; every rewritten entry lies in `[0, 1]`,
entries holding the column minimum become 0, entries holding the maximum
become 1, and both 0 and 1 are attained in every column.  On the 3×2 test
matrix the result matches the expected
`[[1, 0.0106619], [0, 1], [0.969962, 0]]` within 1e-4. -/
theorem minmax_scale_correct :
    (∀ (m : List (List ℚ)) (w : ℕ), Rectangular w m →
      (∀ j, j < w → colMin (getColumn m j) < colMax (getColumn m j)) →
      ∀ i j, i < m.length → j < w →
        entry (minmaxScale m) i j =
          (entry m i j - colMin (getColumn m j)) /
            (colMax (getColumn m j) - colMin (getColumn m j)) ∧
        0 ≤ entry (minmaxScale m) i j ∧
        entry (minmaxScale m) i j ≤ 1 ∧
        (entry m i j = colMin (getColumn m j) →
          entry (minmaxScale m) i j = 0) ∧
        (entry m i j = colMax (getColumn m j) →
          entry (minmaxScale m) i j = 1)) ∧
    (∀ (m : List (List ℚ)) (w : ℕ), Rectangular w m →
      (∀ j, j < w → colMin (getColumn m j) < colMax (getColumn m j)) →
      ∀ j, j < w →
        (∃ i, i < m.length ∧ entry (minmaxScale m) i j = 0) ∧
        (∃ i, i < m.length ∧ entry (minmaxScale m) i j = 1)) ∧
    (|entry (minmaxScale scaleTestData) 0 0 - 1| ≤ 1/10000 ∧
     |entry (minmaxScale scaleTestData) 0 1 - 106619/10000000| ≤ 1/10000 ∧
     |entry (minmaxScale scaleTestData) 1 0 - 0| ≤ 1/10000 ∧
     |entry (minmaxScale scaleTestData) 1 1 - 1| ≤ 1/10000 ∧
     |entry (minmaxScale scaleTestData) 2 0 - 969962/1000000| ≤ 1/10000 ∧
     |entry (minmaxScale scaleTestData) 2 1 - 0| ≤ 1/10000) := by
  have hgen : ∀ (m : List (List ℚ)) (w : ℕ), Rectangular w m →
      (∀ j, j < w → colMin (getColumn m j) < colMax (getColumn m j)) →
      ∀ i j, i < m.length → j < w →
        entry (minmaxScale m) i j =
          (entry m i j - colMin (getColumn m j)) /
            (colMax (getColumn m j) - colMin (getColumn m j)) ∧
        0 ≤ entry (minmaxScale m) i j ∧
        entry (minmaxScale m) i j ≤ 1 ∧
        (entry m i j = colMin (getColumn m j) →
          entry (minmaxScale m) i j = 0) ∧
        (entry m i j = colMax (getColumn m j) →
          entry (minmaxScale m) i j = 1) := by
    intro m w hrect hnd i j hi hj
    have hent : entry (minmaxScale m) i j
        = (entry m i j - colMin (getColumn m j)) /
          (colMax (getColumn m j) - colMin (getColumn m j)) := by
      rw [minmaxScale]
      exact colwiseScale_entry _ _ m w i j hrect hi hj
    have hmem := entry_mem_getColumn m i j hi
    have hlo := colMin_le_mem (getColumn m j) _ hmem
    have hup := mem_le_colMax (getColumn m j) _ hmem
    have hdn : (0:ℚ) < colMax (getColumn m j) - colMin (getColumn m j) :=
      sub_pos.mpr (hnd j hj)
    refine ⟨hent, ?_, ?_, ?_, ?_⟩
    · rw [hent]
      exact div_nonneg (by linarith) (le_of_lt hdn)
    · rw [hent, div_le_one hdn]
      linarith
    · intro h
      rw [hent, h, sub_self, zero_div]
    · intro h
      rw [hent, h]
      exact div_self (ne_of_gt hdn)
  refine ⟨hgen, ?_, ?_⟩
  · intro m w hrect hnd j hj
    have hne : getColumn m j ≠ [] := by
      intro hnil
      have hlt := hnd j hj
      rw [hnil] at hlt
      simp [colMin, colMax] at hlt
    constructor
    · obtain ⟨i, hi, hei⟩ := getColumn_mem_entry m j _ (colMin_mem _ hne)
      exact ⟨i, hi, (hgen m w hrect hnd i j hi hj).2.2.2.1 hei⟩
    · obtain ⟨i, hi, hei⟩ := getColumn_mem_entry m j _ (colMax_mem _ hne)
      exact ⟨i, hi, (hgen m w hrect hnd i j hi hj).2.2.2.2 hei⟩
  · rw [minmaxScale_scaleTestData]
    refine ⟨?_, ?_, ?_, ?_, ?_, ?_⟩
    · show |(1:ℚ) - 1| ≤ 1/10000
      norm_num
    · show |(221:ℚ)/20728 - 106619/10000000| ≤ 1/10000
      rw [abs_le]
      constructor <;> norm_num
    · show |(0:ℚ) - 0| ≤ 1/10000
      norm_num
    · show |(1:ℚ) - 1| ≤ 1/10000
      norm_num
    · show |(18503:ℚ)/19076 - 969962/1000000| ≤ 1/10000
      rw [abs_le]
      constructor <;> norm_num
    · show |(0:ℚ) - 0| ≤ 1/10000
      norm_num

/-- Witness for C4 on the 3×2 test matrix at entry `(2, 0)`: its columns
are rectangular of width 2 and non-degenerate, and the scaled entry is
`(v - lo) / (hi - lo)`, within `[0, 1]`. -/
theorem minmax_scale_correct_witness :
    Rectangular 2 scaleTestData ∧
    (∀ j, j < 2 → colMin (getColumn scaleTestData j) <
      colMax (getColumn scaleTestData j)) ∧
    (entry (minmaxScale scaleTestData) 2 0 =
      (entry scaleTestData 2 0 - colMin (getColumn scaleTestData 0)) /
        (colMax (getColumn scaleTestData 0) -
          colMin (getColumn scaleTestData 0)) ∧
     0 ≤ entry (minmaxScale scaleTestData) 2 0 ∧
     entry (minmaxScale scaleTestData) 2 0 ≤ 1) := by
  have hrect : Rectangular 2 scaleTestData := by
    intro row hrow
    simp [scaleTestData] at hrow
    rcases hrow with h | h | h <;> rw [h] <;> rfl
  have hnd : ∀ j, j < 2 → colMin (getColumn scaleTestData j) <
      colMax (getColumn scaleTestData j) := by
    intro j hj
    interval_cases j <;>
      · simp [getColumn, colMin, colMax, scaleTestData]
        norm_num [min_def, max_def]
  have h := minmax_scale_correct.1 scaleTestData 2 hrect hnd 2 0
    (by norm_num [scaleTestData]) (by norm_num)
  exact ⟨hrect, hnd, h.1, h.2.1, h.2.2.1⟩

/-! Columns of a column-wise scaled matrix, and sums over mapped
columns. -/

theorem getColumn_cons (r : List ℚ) (m : List (List ℚ)) (j : ℕ) :
    getColumn (r :: m) j = r.getD j 0 :: getColumn m j := rfl

theorem colwiseScale_cons (sub den : ℕ → ℚ) (r : List ℚ)
    (m : List (List ℚ)) :
    colwiseScale sub den (r :: m) =
      ((List.range r.length).map (fun j => (r.getD j 0 - sub j) / den j)) ::
        colwiseScale sub den m := rfl

theorem getColumn_colwiseScale (sub den : ℕ → ℚ) (m : List (List ℚ))
    (w j : ℕ) (hrect : Rectangular w m) (hj : j < w) :
    getColumn (colwiseScale sub den m) j =
      (getColumn m j).map (fun v => (v - sub j) / den j) := by
  induction m with
  | nil => rfl
  | cons r rest ih =>
    have hrow : r.length = w := hrect r (List.mem_cons_self r rest)
    have hrest : Rectangular w rest := fun x hx =>
      hrect x (List.mem_cons_of_mem r hx)
    rw [colwiseScale_cons, getColumn_cons, getColumn_cons, List.map_cons,
      ih hrest]
    congr 1
    rw [List.getD_eq_getElem ((List.range r.length).map _) 0
        (by simp [hrow]; omega),
      List.getElem_map, List.getElem_range]

theorem sum_map_div (c : List ℚ) (f : ℚ → ℚ) (d : ℚ) :
    (c.map (fun v => f v / d)).sum = (c.map f).sum / d := by
  induction c with
  | nil => simp
  | cons x xs ih => simp [ih, add_div]

theorem sum_map_sub_const (c : List ℚ) (a : ℚ) :
    (c.map (fun v => v - a)).sum = c.sum - c.length * a := by
  induction c with
  | nil => simp
  | cons x xs ih =>
    simp only [List.map_cons, List.sum_cons, ih, List.length_cons]
    push_cast
    ring

/-- The standardized column sums to zero, so its mean is zero. -/
theorem standardized_col_mean_zero (c : List ℚ) (s : ℚ) (hne : c ≠ []) :
    colMean (c.map (fun v => (v - colMean c) / s)) = 0 := by
  have hn : (0:ℚ) < c.length := by
    have h := List.length_pos.mpr hne
    exact_mod_cast h
  have hsum : (c.map (fun v => (v - colMean c) / s)).sum = 0 := by
    rw [sum_map_div (c := c) (f := fun v => v - colMean c) (d := s),
      sum_map_sub_const, colMean]
    field_simp
  rw [colMean, hsum, zero_div]

/-- The standardized column has sample variance one whenever the divisor
squares to the original column's sample variance. -/
theorem standardized_col_var_one (c : List ℚ) (s : ℚ)
    (hlen : 2 ≤ c.length) (hs : s ≠ 0)
    (hvar : s ^ 2 = colSampleVar c) :
    colSampleVar (c.map (fun v => (v - colMean c) / s)) = 1 := by
  have hne : c ≠ [] := by
    intro h
    rw [h] at hlen
    simp at hlen
  have hmean0 := standardized_col_mean_zero c s hne
  rw [colSampleVar, hmean0, List.map_map]
  have hfun : ((fun x => (x - 0) ^ 2) ∘ (fun v => (v - colMean c) / s))
      = fun v => ((v - colMean c) ^ 2) / s ^ 2 := by
    funext v
    simp [Function.comp, div_pow]
  rw [hfun, sum_map_div (c := c) (f := fun v => (v - colMean c) ^ 2)
      (d := s ^ 2),
    List.length_map]
  have hvar' : colSampleVar c =
      (c.map (fun v => (v - colMean c) ^ 2)).sum / ((c.length : ℚ) - 1) := rfl
  have hs2 : s ^ 2 ≠ 0 := pow_ne_zero 2 hs
  rw [div_div, mul_comm, ← div_div, ← hvar', ← hvar]
  exact div_self hs2

/-- C5.  With every feature column non-degenerate (its sample variance is
a nonzero square `sigma^2`), standardizing rewrites entry `(i, j)` to
`(v - mu) / sigma` for that column's mean `mu` and standard deviation
`sigma`, and afterwards every column has mean exactly 0 and sample
variance exactly 1 — hence standard deviation 1. -/
theorem standardize_correct (m : List (List ℚ)) (w : ℕ) (sigmas : ℕ → ℚ)
    (hrect : Rectangular w m) (hlen : 2 ≤ m.length)
    (hsig : ∀ j, j < w → sigmas j ≠ 0 ∧
      (sigmas j) ^ 2 = colSampleVar (getColumn m j)) :
    (∀ i j, i < m.length → j < w →
      entry (standardizeWith sigmas m) i j =
        (entry m i j - colMean (getColumn m j)) / sigmas j) ∧
    (∀ j, j < w →
      colMean (getColumn (standardizeWith sigmas m) j) = 0 ∧
      colSampleVar (getColumn (standardizeWith sigmas m) j) = 1) := by
  constructor
  · intro i j hi hj
    rw [standardizeWith]
    exact colwiseScale_entry _ _ m w i j hrect hi hj
  · intro j hj
    have hcol : getColumn (standardizeWith sigmas m) j =
        (getColumn m j).map
          (fun v => (v - colMean (getColumn m j)) / sigmas j) := by
      rw [standardizeWith]
      exact getColumn_colwiseScale _ _ m w j hrect hj
    have hm_ne : m ≠ [] := by
      intro h
      rw [h] at hlen
      simp at hlen
    have hne : getColumn m j ≠ [] := getColumn_ne_nil m j hm_ne
    have hlenc : 2 ≤ (getColumn m j).length := by
      rw [getColumn, List.length_map]
      exact hlen
    constructor
    · rw [hcol]
      exact standardized_col_mean_zero _ _ hne
    · rw [hcol]
      exact standardized_col_var_one _ _ hlenc (hsig j hj).1 (hsig j hj).2

/-- Witness for C5 on the one-column matrix `[[0], [1], [2]]`, whose
column has mean 1 and sample variance 1, so `sigma = 1`: the standardized
column has mean 0 and sample variance 1. -/
theorem standardize_correct_witness :
    Rectangular 1 [[(0:ℚ)], [1], [2]] ∧
    (2 ≤ ([[(0:ℚ)], [1], [2]] : List (List ℚ)).length) ∧
    ((1:ℚ) ≠ 0 ∧ (1:ℚ) ^ 2 = colSampleVar (getColumn [[(0:ℚ)], [1], [2]] 0)) ∧
    (colMean (getColumn (standardizeWith (fun _ => 1) [[(0:ℚ)], [1], [2]]) 0) = 0 ∧
     colSampleVar
       (getColumn (standardizeWith (fun _ => 1) [[(0:ℚ)], [1], [2]]) 0) = 1) := by
  have hrect : Rectangular 1 [[(0:ℚ)], [1], [2]] := by
    intro row hrow
    simp at hrow
    rcases hrow with h | h | h <;> rw [h] <;> rfl
  have hvar : (1:ℚ) ^ 2 = colSampleVar (getColumn [[(0:ℚ)], [1], [2]] 0) := by
    simp [colSampleVar, colMean, getColumn]
    norm_num
  have hsig : ∀ j, j < 1 → (fun _ : ℕ => (1:ℚ)) j ≠ 0 ∧
      ((fun _ : ℕ => (1:ℚ)) j) ^ 2 =
        colSampleVar (getColumn [[(0:ℚ)], [1], [2]] j) := by
    intro j hj
    interval_cases j
    exact ⟨one_ne_zero, hvar⟩
  exact ⟨hrect, by norm_num, ⟨one_ne_zero, hvar⟩,
    (standardize_correct [[(0:ℚ)], [1], [2]] 1 (fun _ => 1) hrect
      (by norm_num) hsig).2 0 (by norm_num)⟩

/-! The `standardize` test pins Bessel's divisor: concrete column 0 of
the test matrix. -/

theorem scaleTestData_rect : Rectangular 2 scaleTestData := by
  intro row hrow
  simp [scaleTestData] at hrow
  rcases hrow with h | h | h <;> rw [h] <;> rfl

theorem colMean_scaleTestData_col0 :
    colMean (getColumn scaleTestData 0) = -17957/3000 := by
  simp [colMean, getColumn, scaleTestData]
  norm_num

theorem colSampleVar_scaleTestData_col0 :
    colSampleVar (getColumn scaleTestData 0) = 1059874671/9000000 := by
  simp [colSampleVar, colMean, getColumn, scaleTestData]
  norm_num

theorem colPopVar_scaleTestData_col0 :
    colPopVar (getColumn scaleTestData 0) = 2119749342/27000000 := by
  simp [colPopVar, colMean, getColumn, scaleTestData]
  norm_num

theorem standardizeWith_scaleTestData_entry (s : ℚ) (i : ℕ) (hi : i < 3) :
    entry (standardizeWith (fun _ => s) scaleTestData) i 0 =
      (entry scaleTestData i 0 + 17957/3000) / s := by
  have h := colwiseScale_entry (fun j => colMean (getColumn scaleTestData j))
    (fun _ => s) scaleTestData 2 i 0 scaleTestData_rect
    (by simpa [scaleTestData] using hi) (by norm_num)
  rw [standardizeWith, h]
  simp only []
  rw [colMean_scaleTestData_col0]
  ring

/-- C6.  On column 0 of the test matrix, `[0.564, -18.512, -0.009]`, the
Bessel-corrected sample standard deviation (divisor `n - 1 = 2`) lies in
(10.85, 10.86) while the population standard deviation (divisor `n = 3`)
lies in (8.86, 8.87); dividing by any value in the first bracket
reproduces the test's expected standardized values
`[0.60355, -1.1543, 0.550748]` within 1e-3, while dividing by any value
in the second bracket misses the first expected value by more than 0.1.
The test expectations therefore pin the Bessel-corrected divisor. -/
theorem standardize_divisor_is_bessel :
    ((1085/100 : ℚ) ^ 2 < colSampleVar (getColumn scaleTestData 0) ∧
      colSampleVar (getColumn scaleTestData 0) < (1086/100 : ℚ) ^ 2) ∧
    ((886/100 : ℚ) ^ 2 < colPopVar (getColumn scaleTestData 0) ∧
      colPopVar (getColumn scaleTestData 0) < (887/100 : ℚ) ^ 2) ∧
    (∀ s : ℚ, 1085/100 ≤ s → s ≤ 1086/100 →
      |entry (standardizeWith (fun _ => s) scaleTestData) 0 0 -
        60355/100000| ≤ 1/1000 ∧
      |entry (standardizeWith (fun _ => s) scaleTestData) 1 0 +
        11543/10000| ≤ 1/1000 ∧
      |entry (standardizeWith (fun _ => s) scaleTestData) 2 0 -
        550748/1000000| ≤ 1/1000) ∧
    (∀ s : ℚ, 886/100 ≤ s → s ≤ 887/100 →
      1/10 < |entry (standardizeWith (fun _ => s) scaleTestData) 0 0 -
        60355/100000|) := by
  refine ⟨?_, ?_, ?_, ?_⟩
  · rw [colSampleVar_scaleTestData_col0]
    norm_num
  · rw [colPopVar_scaleTestData_col0]
    norm_num
  · intro s h1 h2
    have hspos : (0:ℚ) < s := lt_of_lt_of_le (by norm_num) h1
    have he0 : entry (standardizeWith (fun _ => s) scaleTestData) 0 0 =
        (19649/3000)/s := by
      rw [standardizeWith_scaleTestData_entry s 0 (by norm_num)]
      norm_num [entry, scaleTestData]
    have he1 : entry (standardizeWith (fun _ => s) scaleTestData) 1 0 =
        -((37579/3000)/s) := by
      rw [standardizeWith_scaleTestData_entry s 1 (by norm_num)]
      rw [← neg_div]
      norm_num [entry, scaleTestData]
    have he2 : entry (standardizeWith (fun _ => s) scaleTestData) 2 0 =
        (1793/300)/s := by
      rw [standardizeWith_scaleTestData_entry s 2 (by norm_num)]
      norm_num [entry, scaleTestData]
    have hub0 : (19649/3000:ℚ)/s ≤ 19649/32550 := by
      have h := div_le_div_of_nonneg_left
        (by norm_num : (0:ℚ) ≤ 19649/3000)
        (by norm_num : (0:ℚ) < 1085/100) h1
      calc (19649/3000:ℚ)/s ≤ (19649/3000)/(1085/100) := h
        _ = 19649/32550 := by norm_num
    have hlb0 : (19649/32580:ℚ) ≤ (19649/3000)/s := by
      have h := div_le_div_of_nonneg_left
        (by norm_num : (0:ℚ) ≤ 19649/3000) hspos h2
      calc (19649/32580:ℚ) = (19649/3000)/(1086/100) := by norm_num
        _ ≤ (19649/3000)/s := h
    have hub1 : (37579/3000:ℚ)/s ≤ 37579/32550 := by
      have h := div_le_div_of_nonneg_left
        (by norm_num : (0:ℚ) ≤ 37579/3000)
        (by norm_num : (0:ℚ) < 1085/100) h1
      calc (37579/3000:ℚ)/s ≤ (37579/3000)/(1085/100) := h
        _ = 37579/32550 := by norm_num
    have hlb1 : (37579/32580:ℚ) ≤ (37579/3000)/s := by
      have h := div_le_div_of_nonneg_left
        (by norm_num : (0:ℚ) ≤ 37579/3000) hspos h2
      calc (37579/32580:ℚ) = (37579/3000)/(1086/100) := by norm_num
        _ ≤ (37579/3000)/s := h
    have hub2 : (1793/300:ℚ)/s ≤ 1793/3255 := by
      have h := div_le_div_of_nonneg_left
        (by norm_num : (0:ℚ) ≤ 1793/300)
        (by norm_num : (0:ℚ) < 1085/100) h1
      calc (1793/300:ℚ)/s ≤ (1793/300)/(1085/100) := h
        _ = 1793/3255 := by norm_num
    have hlb2 : (1793/3258:ℚ) ≤ (1793/300)/s := by
      have h := div_le_div_of_nonneg_left
        (by norm_num : (0:ℚ) ≤ 1793/300) hspos h2
      calc (1793/3258:ℚ) = (1793/300)/(1086/100) := by norm_num
        _ ≤ (1793/300)/s := h
    refine ⟨?_, ?_, ?_⟩
    · rw [he0, abs_le]
      constructor <;> linarith
    · rw [he1, abs_le]
      constructor <;> linarith
    · rw [he2, abs_le]
      constructor <;> linarith
  · intro s h1 h2
    have hspos : (0:ℚ) < s := lt_of_lt_of_le (by norm_num) h1
    have he0 : entry (standardizeWith (fun _ => s) scaleTestData) 0 0 =
        (19649/3000)/s := by
      rw [standardizeWith_scaleTestData_entry s 0 (by norm_num)]
      norm_num [entry, scaleTestData]
    have hlb : (19649/26610:ℚ) ≤ (19649/3000)/s := by
      have h := div_le_div_of_nonneg_left
        (by norm_num : (0:ℚ) ≤ 19649/3000) hspos h2
      calc (19649/26610:ℚ) = (19649/3000)/(887/100) := by norm_num
        _ ≤ (19649/3000)/s := h
    rw [he0]
    have hpos : (0:ℚ) < (19649/3000)/s - 60355/100000 := by linarith
    rw [abs_of_pos hpos]
    linarith

/-- Witness for C6: at the concrete divisor 10.85 (inside the Bessel
bracket) the first standardized value matches the test expectation within
1e-3, while at 8.86 (inside the population bracket) it misses by more
than 0.1. -/
theorem standardize_divisor_is_bessel_witness :
    |entry (standardizeWith (fun _ => (1085/100:ℚ)) scaleTestData) 0 0 -
      60355/100000| ≤ 1/1000 ∧
    1/10 < |entry (standardizeWith (fun _ => (886/100:ℚ)) scaleTestData) 0 0 -
      60355/100000| :=
  ⟨(standardize_divisor_is_bessel.2.2.1 (1085/100) (by norm_num)
      (by norm_num)).1,
   standardize_divisor_is_bessel.2.2.2 (886/100) (by norm_num) (by norm_num)⟩

/-! ## Labeled data -/

/-- Modelled from the spec: `_cdata.py` is not in the excerpt.
A labeled data container: sample rows plus one label per sample, aligned
by index. -/
structure LabeledCData (σ β : Type) where
  data : List σ
  labels : List β

/-- Modelled from the spec: `_cdata.py` is not in the excerpt.
Constructing `LabeledCData` from data and an explicit label sequence
stores the sequence when its length equals the sample count and raises
`LabelLengthMismatch` otherwise. -/
def mkLabeledCData {σ β : Type} (data : List σ) (labels : List β) :
    Except String (LabeledCData σ β) :=
  if labels.length = data.length then Except.ok ⟨data, labels⟩
  else Except.error "LabelLengthMismatch"

/-- Modelled from the spec: `_cdata.py` is not in the excerpt.
Constructing `LabeledCData` from data and a unary labeling function
applies the function to each sample row, in sample order. -/
def mkLabeledCDataFun {σ β : Type} (data : List σ) (f : σ → β) :
    LabeledCData σ β :=
  ⟨data, data.map f⟩

/-- The sample rows of `test_basic_labeling`. -/
def labelTestData : List (List ℚ) :=
  [[-1], [1], [1/2], [1/4], [-33/100], [0]]

/-- The explicit labels of `test_basic_labeling`. -/
def labelTestLabels : List ℕ := [0, 1, 1, 1, 0, 1]

/-- The sample rows of `test_func_labeling`. -/
def funcTestData : List (List ℚ) :=
  [[500], [-17], [12], [0], [-1/500], [1/1000]]

/-- The labeling function of `test_func_labeling`: 1 for a non-negative
first feature, else 0. -/
def funcTestLabel (row : List ℚ) : ℕ := if 0 ≤ row.getD 0 0 then 1 else 0

/-- C7.  Construction with an explicit label sequence fails with
`LabelLengthMismatch` exactly when the sequence's length differs from the
sample count; on a match it succeeds storing the given sequence, and any
successfully constructed value satisfies
`len(labels) == num_samples`. -/
theorem labeled_cdata_label_check {σ β : Type} (data : List σ)
    (labels : List β) :
    (mkLabeledCData data labels = Except.error "LabelLengthMismatch" ↔
      labels.length ≠ data.length) ∧
    (labels.length = data.length →
      mkLabeledCData data labels = Except.ok ⟨data, labels⟩) ∧
    (∀ lc : LabeledCData σ β, mkLabeledCData data labels = Except.ok lc →
      lc.data = data ∧ lc.labels = labels ∧
      lc.labels.length = lc.data.length) := by
  unfold mkLabeledCData
  split_ifs with hlen
  · refine ⟨by simp [hlen], fun _ => rfl, ?_⟩
    intro lc hlc
    have h := Except.ok.inj hlc
    subst h
    exact ⟨rfl, rfl, hlen⟩
  · refine ⟨by simp [hlen], fun h => absurd h hlen, ?_⟩
    intro lc hlc
    cases hlc

/-- Witness for C7 at the `test_basic_labeling` data: six labels against
six samples construct successfully and store the labels, while a
two-label sequence fails with `LabelLengthMismatch`. -/
theorem labeled_cdata_label_check_witness :
    mkLabeledCData labelTestData labelTestLabels =
      Except.ok ⟨labelTestData, labelTestLabels⟩ ∧
    mkLabeledCData labelTestData [0, 1] =
      Except.error "LabelLengthMismatch" :=
  ⟨(labeled_cdata_label_check labelTestData labelTestLabels).2.1 rfl,
   (labeled_cdata_label_check labelTestData [0, 1]).1.mpr (by decide)⟩

/-- C8.  Construction from data and a unary labeling function always
succeeds, keeps the data, produces one label per sample, and for every
sample index `i` the stored label is the function applied to sample
`i`. -/
theorem func_labeling_correct {σ β : Type} (data : List σ) (f : σ → β)
    (dr : σ) (dl : β) :
    (mkLabeledCDataFun data f).data = data ∧
    (mkLabeledCDataFun data f).labels.length = data.length ∧
    (∀ i, i < data.length →
      (mkLabeledCDataFun data f).labels.getD i dl =
        f (data.getD i dr)) := by
  refine ⟨rfl, by simp [mkLabeledCDataFun], ?_⟩
  intro i hi
  unfold mkLabeledCDataFun
  rw [List.getD_eq_getElem (data.map f) dl (by simpa using hi),
    List.getElem_map, List.getD_eq_getElem data dr hi]

/-- Witness for C8 at the `test_func_labeling` data: the label stored at
index 0 is the function applied to sample 0 (and evaluates to 1, since
the first feature 500 is non-negative). -/
theorem func_labeling_correct_witness :
    (mkLabeledCDataFun funcTestData funcTestLabel).labels.getD 0 0 =
      funcTestLabel (funcTestData.getD 0 []) :=
  (func_labeling_correct funcTestData funcTestLabel [] 0).2.2 0 (by decide)

/-- The five scaling method names the spec's table supports. -/
def supportedMethods : List String :=
  ["min-max norm", "mean norm", "standardize", "L2 norm", "L1 norm"]

/-- C9.  `scale_features(method)` fails with `UnsupportedMethod` exactly
when `method` is none of the five supported names, and succeeds
(returning a scaled matrix, never that error) on each of the five. -/
theorem scale_features_method_check (sigmas norms : ℕ → ℚ)
    (method : String) (m : List (List ℚ)) :
    (scale_features sigmas norms method m =
        Except.error "UnsupportedMethod" ↔
      method ∉ supportedMethods) ∧
    (method ∈ supportedMethods →
      ∃ r, scale_features sigmas norms method m = Except.ok r) := by
  unfold scale_features supportedMethods
  split_ifs with hf1 hf2 hf3 hf4 hf5 <;> simp_all

/-- Witness for C9: the misspelled name `"max norm"` raises
`UnsupportedMethod`, while the supported name `"standardize"` does
not. -/
theorem scale_features_method_check_witness :
    scale_features (fun _ => 1) (fun _ => 1) "max norm" [] =
      Except.error "UnsupportedMethod" ∧
    (∃ r, scale_features (fun _ => 1) (fun _ => 1) "standardize" [] =
      Except.ok r) :=
  ⟨(scale_features_method_check (fun _ => 1) (fun _ => 1) "max norm"
      []).1.mpr (by decide),
   (scale_features_method_check (fun _ => 1) (fun _ => 1) "standardize"
      []).2 (by decide)⟩

/-! ## CData construction and shape -/

/-- A nested numeric array-like of arbitrary rank: a scalar (rank 0) or
a list of subarrays.  Models the inputs `CData` accepts. -/
inductive NDArray (α : Type) : Type
  | scalar : α → NDArray α
  | node : List (NDArray α) → NDArray α

/-- The dimension vector (numpy `shape`) read off the first-child chain:
a node contributes its child count, an empty node reads as zero-length
axis 0 (numpy gives `[]` the shape `(0,)`). -/
def dims {α : Type} : NDArray α → List ℕ
  | .scalar _ => []
  | .node [] => [0]
  | .node (x :: xs) => (xs.length + 1) :: dims x

mutual

/-- Total number of scalar elements of the array. -/
def scalarCount {α : Type} : NDArray α → ℕ
  | .scalar _ => 1
  | .node xs => scalarCountList xs

/-- Total number of scalar elements of a list of subarrays. -/
def scalarCountList {α : Type} : List (NDArray α) → ℕ
  | [] => 0
  | x :: xs => scalarCount x + scalarCountList xs

end

/-- `Rect a sh`: the array `a` is rectangular with dimension vector `sh`
(every sibling subarray has the same shape), the contract of consistent
row length across the sample axis. -/
inductive Rect {α : Type} : NDArray α → List ℕ → Prop
  | scalar (a : α) : Rect (.scalar a) []
  | node_nil : Rect (.node []) [0]
  | node (x : NDArray α) (xs : List (NDArray α)) (sh : List ℕ) :
      (∀ y ∈ x :: xs, Rect y sh) →
      Rect (.node (x :: xs)) ((xs.length + 1) :: sh)

/-- Modelled from the spec: `_cdata.py` is not in the excerpt.
`CData(data)` stores the array and computes `num_samples` as the size of
axis 0 and `num_features` as the product of the sizes of all remaining
axes (1 for a rank-1 input). -/
structure CData (α : Type) where
  data : NDArray α
  num_samples : ℕ
  num_features : ℕ

/-- Modelled from the spec: `_cdata.py` is not in the excerpt.
The `CData` constructor. -/
def mkCData {α : Type} (a : NDArray α) : CData α :=
  ⟨a, (dims a).headD 0, ((dims a).tail).prod⟩

theorem dims_of_rect {α : Type} (a : NDArray α) (sh : List ℕ)
    (h : Rect a sh) : dims a = sh := by
  induction h with
  | scalar a => rfl
  | node_nil => rfl
  | node x xs sh h ih =>
    rw [dims]
    rw [ih x (List.mem_cons_self x xs)]

theorem sum_scalarCountList {α : Type} (xs : List (NDArray α)) (c : ℕ)
    (h : ∀ x ∈ xs, scalarCount x = c) :
    scalarCountList xs = xs.length * c := by
  induction xs with
  | nil => simp [scalarCountList]
  | cons x rest ih =>
    rw [scalarCountList, h x (List.mem_cons_self x rest),
      ih (fun y hy => h y (List.mem_cons_of_mem x hy))]
    simp [List.length_cons]
    ring_nf

theorem scalarCount_of_rect {α : Type} (a : NDArray α) (sh : List ℕ)
    (h : Rect a sh) : scalarCount a = sh.prod := by
  induction h with
  | scalar a => rfl
  | node_nil => simp [scalarCount, scalarCountList]
  | node x xs sh h ih =>
    rw [scalarCount]
    have hall : ∀ y ∈ x :: xs, scalarCount y = sh.prod := fun y hy =>
      ih y hy
    rw [sum_scalarCountList (x :: xs) sh.prod hall]
    simp [List.length_cons, List.prod_cons]

/-- C10.  For a rectangular array of rank at least 1, `num_samples` is
the size of axis 0 — the number of subarrays along the first axis — and
`num_features` is the product of the sizes of all remaining axes, which
equals the flattened scalar count of each sample; a rank-1 input has
`num_features = 1`. -/
theorem cdata_shape_correct {α : Type} :
    (∀ (a : NDArray α) (n : ℕ) (sh : List ℕ), Rect a (n :: sh) →
      (mkCData a).num_samples = n ∧
      (mkCData a).num_features = sh.prod ∧
      n * (mkCData a).num_features = scalarCount a) ∧
    (∀ (xs : List (NDArray α)) (n : ℕ) (sh : List ℕ),
      Rect (NDArray.node xs) (n :: sh) →
      n = xs.length ∧
      ∀ x ∈ xs, scalarCount x = (mkCData (NDArray.node xs)).num_features) ∧
    (∀ (a : NDArray α) (n : ℕ), Rect a [n] →
      (mkCData a).num_features = 1) := by
  have hmain : ∀ (a : NDArray α) (n : ℕ) (sh : List ℕ), Rect a (n :: sh) →
      (mkCData a).num_samples = n ∧
      (mkCData a).num_features = sh.prod ∧
      n * (mkCData a).num_features = scalarCount a := by
    intro a n sh h
    have hd := dims_of_rect a (n :: sh) h
    have hc := scalarCount_of_rect a (n :: sh) h
    unfold mkCData
    rw [hd]
    refine ⟨rfl, rfl, ?_⟩
    show n * (n :: sh).tail.prod = scalarCount a
    rw [hc, List.prod_cons, List.tail_cons]
  refine ⟨hmain, ?_, ?_⟩
  · intro xs n sh h
    cases h with
    | node_nil =>
      exact ⟨rfl, fun x hx => absurd hx (List.not_mem_nil x)⟩
    | node x rest sh hall =>
      refine ⟨rfl, ?_⟩
      intro y hy
      have hcnt := scalarCount_of_rect y sh (hall y hy)
      have hfeat := (hmain (NDArray.node (x :: rest)) (rest.length + 1) sh
        (Rect.node x rest sh hall)).2.1
      rw [hcnt, hfeat]
  · intro a n h
    exact (hmain a n [] h).2.1

/-- The 2×3 test array of `test_basic_cdata`. -/
def testArr2x3 : NDArray ℤ :=
  .node [.node [.scalar 1, .scalar 0, .scalar 0],
         .node [.scalar 0, .scalar 1, .scalar 0]]

/-- The 3×3×3 test array of `test_higher_dim_cdata`. -/
def testArr3x3x3 : NDArray ℤ :=
  .node [
    .node [.node [.scalar 0, .scalar 1, .scalar 2],
           .node [.scalar 3, .scalar 4, .scalar 5],
           .node [.scalar 6, .scalar 7, .scalar 8]],
    .node [.node [.scalar 9, .scalar 10, .scalar 11],
           .node [.scalar 12, .scalar 13, .scalar 14],
           .node [.scalar 15, .scalar 16, .scalar 17]],
    .node [.node [.scalar 18, .scalar 19, .scalar 20],
           .node [.scalar 21, .scalar 22, .scalar 23],
           .node [.scalar 24, .scalar 25, .scalar 26]]]

theorem rect_row3 (a b c : ℤ) :
    Rect (NDArray.node [.scalar a, .scalar b, .scalar c]) [3] := by
  have h : ∀ y ∈ [NDArray.scalar a, NDArray.scalar b, NDArray.scalar c],
      Rect y [] := by
    intro y hy
    simp at hy
    rcases hy with h | h | h <;> subst h <;> exact Rect.scalar _
  exact Rect.node _ _ _ h

theorem rect_testArr2x3 : Rect testArr2x3 [2, 3] := by
  have h : ∀ y ∈ [NDArray.node [NDArray.scalar (1:ℤ), .scalar 0, .scalar 0],
      NDArray.node [NDArray.scalar (0:ℤ), .scalar 1, .scalar 0]],
      Rect y [3] := by
    intro y hy
    simp at hy
    rcases hy with h | h <;> subst h <;> exact rect_row3 _ _ _
  exact Rect.node _ _ _ h

theorem rect_testArr3x3x3 : Rect testArr3x3x3 [3, 3, 3] := by
  have hcube : ∀ (a b c d e f g h i : ℤ),
      Rect (NDArray.node [NDArray.node [NDArray.scalar a, .scalar b, .scalar c],
        NDArray.node [NDArray.scalar d, .scalar e, .scalar f],
        NDArray.node [NDArray.scalar g, .scalar h, .scalar i]]) [3, 3] := by
    intro a b c d e f g h i
    have hmem : ∀ y ∈ [NDArray.node [NDArray.scalar a, .scalar b, .scalar c],
        NDArray.node [NDArray.scalar d, .scalar e, .scalar f],
        NDArray.node [NDArray.scalar g, .scalar h, .scalar i]],
        Rect y [3] := by
      intro y hy
      simp at hy
      rcases hy with h | h | h <;> subst h <;> exact rect_row3 _ _ _
    exact Rect.node _ _ _ hmem
  have hmem : ∀ y ∈ [
      NDArray.node [NDArray.node [NDArray.scalar (0:ℤ), .scalar 1, .scalar 2],
        NDArray.node [NDArray.scalar 3, .scalar 4, .scalar 5],
        NDArray.node [NDArray.scalar 6, .scalar 7, .scalar 8]],
      NDArray.node [NDArray.node [NDArray.scalar 9, .scalar 10, .scalar 11],
        NDArray.node [NDArray.scalar 12, .scalar 13, .scalar 14],
        NDArray.node [NDArray.scalar 15, .scalar 16, .scalar 17]],
      NDArray.node [NDArray.node [NDArray.scalar 18, .scalar 19, .scalar 20],
        NDArray.node [NDArray.scalar 21, .scalar 22, .scalar 23],
        NDArray.node [NDArray.scalar 24, .scalar 25, .scalar 26]]],
      Rect y [3, 3] := by
    intro y hy
    simp at hy
    rcases hy with h | h | h <;> subst h <;> exact hcube _ _ _ _ _ _ _ _ _
  exact Rect.node _ _ _ hmem

/-- Witness for C10 at both test arrays: the 2×3 array has 2 samples and
3 features, the 3×3×3 array has 3 samples and 9 features, matching
`test_basic_cdata` and `test_higher_dim_cdata`. -/
theorem cdata_shape_correct_witness :
    (mkCData testArr2x3).num_samples = 2 ∧
    (mkCData testArr2x3).num_features = 3 ∧
    (mkCData testArr3x3x3).num_samples = 3 ∧
    (mkCData testArr3x3x3).num_features = 9 := by
  have h1 := (cdata_shape_correct.1 testArr2x3 2 [3] rect_testArr2x3)
  have h2 := (cdata_shape_correct.1 testArr3x3x3 3 [3, 3] rect_testArr3x3x3)
  refine ⟨h1.1, ?_, h2.1, ?_⟩
  · rw [h1.2.1]
    rfl
  · rw [h2.2.1]
    rfl

end NisqaiData
